import Mathlib

/-!
Verification development for the `mkdirr` utility (Rust).

The embedding below translates `src/lib.rs` into Lean:

* `Mode` mirrors the nine-flag `Mode` struct.
* `Mode.tryFrom` mirrors `impl TryFrom<String> for Mode` (the symbolic
  mode parser).  Rust strings are represented by their character lists;
  `to_lowercase` is modelled by `Char.toLower` on each character (ASCII
  lowercasing, which is all the mode grammar exercises).
* `Mode.bits` mirrors `impl From<&Mode> for Permissions` (the permission
  bit computation).
* The filesystem is modelled as an association list from paths (lists of
  path components, as produced by splitting on the separator) to objects
  (file or directory) carrying permission bits.  The `fs::metadata`,
  `create_dir`, `create_dir_all` and `set_permissions` primitives are
  modelled with their documented POSIX behaviour.
* `create_directory` and `run` mirror the functions of the same names;
  printed stdout/stderr lines and `set_permissions` invocations are made
  explicit in the results.
-/

namespace Mkdirr

/-- Mirror of the Rust `Mode` struct: nine independent boolean flags. -/
structure Mode where
  user_read : Bool
  user_write : Bool
  user_execute : Bool
  group_read : Bool
  group_write : Bool
  group_execute : Bool
  other_read : Bool
  other_write : Bool
  other_execute : Bool
deriving DecidableEq, Repr

/-- Mirror of `impl Default for Mode`: every flag false. -/
def Mode.default : Mode :=
  ⟨false, false, false, false, false, false, false, false, false⟩

/-- Mirror of Rust `"rwx".contains(c)`. -/
def rwxContains (c : Char) : Bool :=
  c == 'r' || c == 'w' || c == 'x'

/-- Mirror of Rust `str::split(sep)` on a one-character separator:
`""` splits to `[""]`, separators at the ends produce empty pieces. -/
def splitOnChar (sep : Char) : List Char → List (List Char)
  | [] => [[]]
  | c :: cs =>
    match splitOnChar sep cs with
    | [] => [[]]
    | g :: gs => if c = sep then [] :: g :: gs else (c :: g) :: gs

/-- Mirror of Rust `str::splitn(2, "=")` driven by the two `iter.next()`
calls in `Mode::try_from`: the component before the first `=`, and
(when an `=` is present) the remainder after it. -/
def splitn2Eq : List Char → List Char × Option (List Char)
  | [] => ([], none)
  | c :: cs =>
    if c = '=' then ([], some cs)
    else
      let r := splitn2Eq cs
      (c :: r.1, r.2)

/-- Mirror of the `match (class, p)` arms in `Mode::try_from`. -/
def applyPerm (cls : List Char) (m : Mode) (p : Char) : Except String Mode :=
  match cls, p with
  | ['u'], 'r' => .ok { m with user_read := true }
  | ['u'], 'w' => .ok { m with user_write := true }
  | ['u'], 'x' => .ok { m with user_execute := true }
  | ['g'], 'r' => .ok { m with group_read := true }
  | ['g'], 'w' => .ok { m with group_write := true }
  | ['g'], 'x' => .ok { m with group_execute := true }
  | ['o'], 'r' => .ok { m with other_read := true }
  | ['o'], 'w' => .ok { m with other_write := true }
  | ['o'], 'x' => .ok { m with other_execute := true }
  | _, _ =>
    .error ("Unknown class or perm: " ++ String.mk cls ++ "=" ++ String.mk [p])

/-- Mirror of the `for p in perms.chars()` loop (early `return Err`). -/
def applyPerms (cls : List Char) (m : Mode) : List Char → Except String Mode
  | [] => .ok m
  | p :: ps =>
    match applyPerm cls m p with
    | .ok m2 => applyPerms cls m2 ps
    | .error e => .error e

/-- Mirror of one iteration of the `for group_perms in s.split(",")` loop. -/
def parseSegment (m : Mode) (seg : List Char) : Except String Mode :=
  match splitn2Eq seg with
  | (_, none) => .error ("Invalid mode segment: " ++ String.mk seg)
  | (cls, some perms) =>
    if perms.any (fun c => !(rwxContains c)) then
      .error ("Invalid permissions in: " ++ String.mk seg)
    else applyPerms cls m perms

/-- Mirror of the whole segment loop (early `return Err`, final `Ok(mode)`). -/
def parseSegments (m : Mode) : List (List Char) → Except String Mode
  | [] => .ok m
  | seg :: rest =>
    match parseSegment m seg with
    | .ok m2 => parseSegments m2 rest
    | .error e => .error e

/-- Mirror of `impl TryFrom<String> for Mode`. -/
def Mode.tryFrom (value : String) : Except String Mode :=
  let s : List Char := value.data.map Char.toLower
  if s.isEmpty then .error ("Mode must be defined")
  else if s.contains '=' then
    parseSegments Mode.default (splitOnChar ',' s)
  else if s.any (fun c => !(rwxContains c)) then
    .error ("Invalid mode: " ++ value)
  else
    let read := s.contains 'r'
    let write := s.contains 'w'
    let exec := s.contains 'x'
    .ok ⟨read, write, exec, read, write, exec, read, write, exec⟩

/-- Mirror of `impl From<&Mode> for Permissions`: the sequence of
`bits |= …` statements. -/
def Mode.bits (m : Mode) : Nat :=
  let bits : Nat := 0
  let bits := if m.user_read then bits ||| 0o400 else bits
  let bits := if m.user_write then bits ||| 0o200 else bits
  let bits := if m.user_execute then bits ||| 0o100 else bits
  let bits := if m.group_read then bits ||| 0o040 else bits
  let bits := if m.group_write then bits ||| 0o020 else bits
  let bits := if m.group_execute then bits ||| 0o010 else bits
  let bits := if m.other_read then bits ||| 0o004 else bits
  let bits := if m.other_write then bits ||| 0o002 else bits
  let bits := if m.other_execute then bits ||| 0o001 else bits
  bits

example : Mode.tryFrom ("rwx") =
    .ok ⟨true, true, true, true, true, true, true, true, true⟩ := rfl

example : Mode.tryFrom ("g=rx") =
    .ok ⟨false, false, false, true, false, true, false, false, false⟩ := rfl

example : (Mode.tryFrom ("u=rwx,g=rx,o=r")).map Mode.bits = .ok 0o754 := rfl

/-! Filesystem model. -/

/-- Kind of a filesystem object: a regular file or a directory. -/
inductive FsObj where
  | file : FsObj
  | dir : FsObj
deriving DecidableEq, Repr

/-- A path, resolved by the OS into its slash-separated components. -/
abbrev FsPath := List (List Char)

/-- One filesystem object: its path, kind and permission bits. -/
structure FsEntry where
  path : FsPath
  obj : FsObj
  perms : Nat
deriving DecidableEq, Repr

/-- Filesystem state.  `chmodDenied` lists paths on which the
`set_permissions` primitive fails with an OS error (environmental, e.g.
not owning the object); `createPerms` is the permission value the OS
assigns to newly created directories (umask-dependent). -/
structure FS where
  entries : List FsEntry
  chmodDenied : List FsPath
  createPerms : Nat
deriving DecidableEq, Repr

/-- How the OS resolves a path string into components. -/
def pathOf (s : String) : FsPath := splitOnChar '/' s.data

/-- Mirror of `fs::metadata`: probe for an object at a path (any kind). -/
def FS.findEntry (fs : FS) (p : FsPath) : Option FsEntry :=
  fs.entries.find? (fun e => e.path == p)

/-- Kind of the object at a path, if any. -/
def FS.lookup (fs : FS) (p : FsPath) : Option FsObj :=
  (fs.findEntry p).map (fun e => e.obj)

/-- Add a fresh directory at a path, with the OS-assigned permissions. -/
def FS.insertDir (fs : FS) (p : FsPath) : FS :=
  { fs with entries := ⟨p, FsObj.dir, fs.createPerms⟩ :: fs.entries }

/-- Overwrite the permission bits of the object at a path. -/
def FS.setPermsAt (fs : FS) (p : FsPath) (bits : Nat) : FS :=
  { fs with entries :=
      fs.entries.map (fun e => if e.path == p then { e with perms := bits } else e) }

/-- OS-level errors surfaced by the filesystem primitives. -/
inductive OsError where
  | alreadyExists
  | notFound
  | notDir
  | permissionDenied
deriving DecidableEq, Repr

/-- Display text of an OS error (as `io::Error`'s `Display` renders it). -/
def errMsg : OsError → String
  | .alreadyExists => "File exists (os error 17)"
  | .notFound => "No such file or directory (os error 2)"
  | .notDir => "Not a directory (os error 20)"
  | .permissionDenied => "Permission denied (os error 13)"

/-- Mirror of `fs::create_dir`: create exactly the given path; fails if
the path already exists (any kind) or its parent is missing or not a
directory.  A single-component path has the working directory as parent,
which always exists. -/
def create_dir (fs : FS) (dir_name : String) : FS × Option OsError :=
  let p := pathOf dir_name
  if (fs.findEntry p).isSome then (fs, some OsError.alreadyExists)
  else if p.dropLast.isEmpty then (fs.insertDir p, none)
  else
    match fs.lookup p.dropLast with
    | some FsObj.dir => (fs.insertDir p, none)
    | some FsObj.file => (fs, some OsError.notDir)
    | none => (fs, some OsError.notFound)

/-- The non-empty prefixes of a component list, shortest first. -/
def prefixesOf (p : FsPath) : List FsPath :=
  (List.range p.length).map (fun i => p.take (i + 1))

/-- Worker for `create_dir_all`: ensure each prefix in turn is a
directory, creating the missing ones; an existing non-directory aborts
(leaving the directories already created in place). -/
def create_dir_all_go (fs : FS) : List FsPath → FS × Option OsError
  | [] => (fs, none)
  | q :: rest =>
    match fs.lookup q with
    | some FsObj.dir => create_dir_all_go fs rest
    | some FsObj.file => (fs, some OsError.alreadyExists)
    | none => create_dir_all_go (fs.insertDir q) rest

/-- Mirror of `fs::create_dir_all`: create every missing prefix of the
path, shortest first. -/
def create_dir_all (fs : FS) (dir_name : String) : FS × Option OsError :=
  create_dir_all_go fs (prefixesOf (pathOf dir_name))

/-- Mirror of Rust `Vec::<&str>::join("/")` (specialised to one-char
separator). -/
def joinWith (sep : Char) : List (List Char) → List Char
  | [] => []
  | [p] => p
  | p :: ps => p ++ sep :: joinWith sep ps

/-- Mirror of `fs::set_permissions`: fails on denied paths or when the
object is missing, otherwise overwrites the permission bits. -/
def set_permissions (fs : FS) (dir_name : String) (bits : Nat) : Except OsError FS :=
  let p := pathOf dir_name
  if fs.chmodDenied.contains p then .error OsError.permissionDenied
  else if (fs.findEntry p).isSome then .ok (fs.setPermsAt p bits)
  else .error OsError.notFound

/-- One verbose success line, `created directory '<path>'`. -/
def createdLine (path : List Char) : String :=
  "created directory '" ++ String.mk path ++ "'"

/-- Mirror of the verbose loop in `create_directory`: for each index into
the slash-separated parts, join the parts up to it back into a string,
probe that string against the (pre-creation) filesystem, and emit a line
for it exactly when the probe fails. -/
def verboseLines (fs : FS) (parts : FsPath) : List String :=
  (List.range parts.length).filterMap (fun index =>
    let full_path := joinWith '/' (parts.take (index + 1))
    if (fs.findEntry (splitOnChar '/' full_path)).isSome then none
    else some (createdLine full_path))

/-- Result of `create_directory`: the filesystem afterwards, the stdout
lines printed, and the error returned (if any). -/
structure CDResult where
  fs : FS
  out : List String
  err : Option OsError
deriving DecidableEq, Repr

/-- Mirror of `create_directory` in `src/lib.rs`. -/
def create_directory (fs : FS) (dir_name : String) (parents verbose : Bool) : CDResult :=
  let metadata := fs.findEntry (pathOf dir_name)
  if parents then
    if metadata.isSome then ⟨fs, [], none⟩
    else
      let verbose_info := if verbose then verboseLines fs (pathOf dir_name) else []
      match create_dir_all fs dir_name with
      | (fs2, none) => ⟨fs2, verbose_info, none⟩
      | (fs2, some e) => ⟨fs2, [], some e⟩
  else
    match create_dir fs dir_name with
    | (fs2, none) => ⟨fs2, if verbose then [createdLine dir_name.data] else [], none⟩
    | (fs2, some e) => ⟨fs2, [], some e⟩

/-- Result of `run`: the filesystem afterwards, stdout lines, stderr
lines, the `set_permissions` invocations made (path and bits, in order),
and the propagated error (if any). -/
structure RunResult where
  fs : FS
  out : List String
  errout : List String
  chmods : List (FsPath × Nat)
  err : Option OsError
deriving DecidableEq, Repr

/-- Mirror of `run` in `src/lib.rs`: process each requested directory in
order; report creation failures on stderr and continue; after a
successful creation apply the mode (when given) via `set_permissions`,
whose failure propagates immediately via `?`. -/
def run (fs : FS) (dirs : List String) (parents verbose : Bool) (mode : Option Mode) :
    RunResult :=
  match dirs with
  | [] => ⟨fs, [], [], [], none⟩
  | dir :: rest =>
    let r := create_directory fs dir parents verbose
    match r.err with
    | some e =>
      let R := run r.fs rest parents verbose mode
      ⟨R.fs, r.out ++ R.out,
        ("cannot create directory `" ++ dir ++ "` " ++ errMsg e) :: R.errout,
        R.chmods, R.err⟩
    | none =>
      match mode with
      | none =>
        let R := run r.fs rest parents verbose mode
        ⟨R.fs, r.out ++ R.out, R.errout, R.chmods, R.err⟩
      | some m =>
        match set_permissions r.fs dir m.bits with
        | .ok fs2 =>
          let R := run fs2 rest parents verbose mode
          ⟨R.fs, r.out ++ R.out, R.errout, (pathOf dir, m.bits) :: R.chmods, R.err⟩
        | .error e => ⟨r.fs, r.out, [], [(pathOf dir, m.bits)], some e⟩

/-- The specification's description of the verbose report: the path
prefixes of the target, shortest first, that do not exist on the given
(pre-creation) filesystem, each rendered as a created-directory line. -/
def specLines (fs : FS) (dir_name : String) : List String :=
  ((prefixesOf (pathOf dir_name)).filter (fun q => (fs.findEntry q).isNone)).map
    (fun q => createdLine (joinWith '/' q))

/-! Helper lemmas about splitting and joining path components. -/

theorem splitOnChar_ne_nil (sep : Char) (l : List Char) : splitOnChar sep l ≠ [] := by
  cases l with
  | nil => simp [splitOnChar]
  | cons c cs =>
    rw [splitOnChar]
    rcases splitOnChar sep cs with _ | ⟨g, gs⟩
    · simp
    · by_cases hc : c = sep <;> simp [hc]

theorem sep_not_mem_of_mem_splitOnChar (sep : Char) (l : List Char) :
    ∀ comp ∈ splitOnChar sep l, sep ∉ comp := by
  induction l with
  | nil =>
    intro comp h
    simp [splitOnChar] at h
    simp [h]
  | cons c cs ih =>
    intro comp h
    rw [splitOnChar] at h
    rcases hs : splitOnChar sep cs with _ | ⟨g, gs⟩
    · exact absurd hs (splitOnChar_ne_nil sep cs)
    · rw [hs] at h
      by_cases hc : c = sep
      · simp [hc] at h
        rcases h with h | h | h
        · simp [h]
        · exact ih comp (by rw [hs, h]; exact List.mem_cons_self ..)
        · exact ih comp (by rw [hs]; exact List.mem_cons_of_mem _ h)
      · simp [hc] at h
        rcases h with h | h
        · subst h
          intro hmem
          rcases List.mem_cons.mp hmem with h | h
          · exact hc h.symm
          · exact ih g (by rw [hs]; exact List.mem_cons_self ..) h
        · exact ih comp (by rw [hs]; exact List.mem_cons_of_mem _ h)

theorem splitOnChar_of_not_mem (sep : Char) (p : List Char) (hp : sep ∉ p) :
    splitOnChar sep p = [p] := by
  induction p with
  | nil => simp [splitOnChar]
  | cons c cs ih =>
    rw [splitOnChar]
    rw [ih (fun h => hp (List.mem_cons_of_mem _ h))]
    have hc : ¬(c = sep) := fun h => hp (h ▸ List.mem_cons_self ..)
    simp [hc]

theorem splitOnChar_append_sep (sep : Char) (p l : List Char) (hp : sep ∉ p) :
    splitOnChar sep (p ++ sep :: l) = p :: splitOnChar sep l := by
  induction p with
  | nil =>
    rw [List.nil_append, splitOnChar]
    rcases hs : splitOnChar sep l with _ | ⟨g, gs⟩
    · exact absurd hs (splitOnChar_ne_nil sep l)
    · simp
  | cons c cs ih =>
    have hcs : sep ∉ cs := fun h => hp (List.mem_cons_of_mem _ h)
    have hc : ¬(c = sep) := fun h => hp (h ▸ List.mem_cons_self ..)
    rw [List.cons_append, splitOnChar, ih hcs]
    simp [hc]

theorem splitOnChar_joinWith (sep : Char) (parts : List (List Char))
    (hne : parts ≠ []) (hsep : ∀ comp ∈ parts, sep ∉ comp) :
    splitOnChar sep (joinWith sep parts) = parts := by
  induction parts with
  | nil => exact absurd rfl hne
  | cons p ps ih =>
    cases ps with
    | nil =>
      rw [joinWith]
      exact splitOnChar_of_not_mem sep p (hsep p (List.mem_cons_self ..))
    | cons q qs =>
      rw [joinWith, splitOnChar_append_sep sep p _ (hsep p (List.mem_cons_self ..))]
      rw [ih (fun h => List.noConfusion h) (fun comp h => hsep comp (List.mem_cons_of_mem _ h))]
      exact fun h => List.noConfusion h

theorem filterMap_if_eq_filter_map {α β γ : Type} (p : β → Bool) (f : β → γ)
    (g : α → β) (l : List α) :
    l.filterMap (fun a => if p (g a) then none else some (f (g a))) =
      ((l.map g).filter (fun b => !(p b))).map f := by
  induction l with
  | nil => rfl
  | cons a l ih =>
    by_cases h : p (g a) <;> simp [h, ih]

theorem verboseLines_eq_specLines (fs : FS) (dir_name : String) :
    verboseLines fs (pathOf dir_name) = specLines fs dir_name := by
  unfold verboseLines specLines prefixesOf
  have hcomp : ∀ i ∈ List.range (pathOf dir_name).length,
      splitOnChar '/' (joinWith '/' ((pathOf dir_name).take (i + 1))) =
        (pathOf dir_name).take (i + 1) := by
    intro i hi
    rw [List.mem_range] at hi
    apply splitOnChar_joinWith
    · intro h
      rcases (List.take_eq_nil_iff).mp h with h | h
      · exact Nat.succ_ne_zero i h
      · rw [h] at hi; simp at hi
    · intro comp hcm
      exact sep_not_mem_of_mem_splitOnChar '/' dir_name.data comp
        (List.mem_of_mem_take hcm)
  rw [List.filterMap_congr (g := fun i =>
    if (fs.findEntry ((pathOf dir_name).take (i + 1))).isSome then none
    else some (createdLine (joinWith '/' ((pathOf dir_name).take (i + 1)))))]
  · rw [show (fun q : FsPath => (fs.findEntry q).isNone) =
        (fun q : FsPath => !(fs.findEntry q).isSome) from ?_]
    · exact filterMap_if_eq_filter_map (fun q => (fs.findEntry q).isSome)
        (fun q => createdLine (joinWith '/' q)) (fun i => (pathOf dir_name).take (i + 1))
        (List.range (pathOf dir_name).length)
    · funext q
      cases fs.findEntry q <;> rfl
  · intro i hi
    simp only [hcomp i hi]

/-! Sample filesystems used by the witnesses. -/

/-- An empty filesystem. -/
def fsEmpty : FS := ⟨[], [], 0o755⟩

/-- A filesystem holding one directory `x`. -/
def fsDirX : FS := ⟨[⟨[['x']], FsObj.dir, 0o755⟩], [], 0o755⟩

/-- A filesystem holding one regular file `x`. -/
def fsFileX : FS := ⟨[⟨[['x']], FsObj.file, 0o644⟩], [], 0o755⟩

/-- A filesystem where changing the permissions of `x` is denied. -/
def fsDenyX : FS := ⟨[], [[['x']]], 0o755⟩

/-! Claim theorems. -/

/-- C1: with `createParents` and `verbose`, for a target that does not yet
exist, the verbose output on success is exactly one
`created directory '<prefix>'` line per path prefix of the target missing
from the pre-creation filesystem, shallowest first and the target last
(`specLines`); on failure no lines are printed. -/
theorem create_directory_verbose_spec (fs : FS) (dir_name : String)
    (hnew : fs.findEntry (pathOf dir_name) = none) :
    ((create_directory fs dir_name true true).err = none →
      (create_directory fs dir_name true true).out = specLines fs dir_name) ∧
    ((create_directory fs dir_name true true).err ≠ none →
      (create_directory fs dir_name true true).out = []) := by
  unfold create_directory
  rw [hnew]
  rcases hca : create_dir_all fs dir_name with ⟨fs2, oe⟩
  rcases oe with _ | e
  · simpa using (verboseLines_eq_specLines fs dir_name)
  · simp

/-- Witness for C1 at a concrete three-level path over a filesystem that
already holds the shallowest ancestor. -/
theorem create_directory_verbose_spec_witness :
    (create_directory (FS.mk [⟨[['a']], FsObj.dir, 0o755⟩] [] 0o755)
        ("a/b/c") true true).out =
      specLines (FS.mk [⟨[['a']], FsObj.dir, 0o755⟩] [] 0o755) ("a/b/c") :=
  (create_directory_verbose_spec (FS.mk [⟨[['a']], FsObj.dir, 0o755⟩] [] 0o755)
    ("a/b/c") rfl).1 rfl

/-- C5: converting a `Mode` to permission bits ORs 0o400/0o200/0o100 for
the user flags, 0o040/0o020/0o010 for the group flags and
0o004/0o002/0o001 for the other flags; parsing `u=rwx,g=rx,o=r`, `rwx`,
`g=rx` and `o=r` then converting yields 0o754, 0o777, 0o050 and 0o004. -/
theorem mode_bits_spec :
    (∀ m : Mode, m.bits =
      (if m.user_read then 0o400 else 0) |||
      (if m.user_write then 0o200 else 0) |||
      (if m.user_execute then 0o100 else 0) |||
      (if m.group_read then 0o040 else 0) |||
      (if m.group_write then 0o020 else 0) |||
      (if m.group_execute then 0o010 else 0) |||
      (if m.other_read then 0o004 else 0) |||
      (if m.other_write then 0o002 else 0) |||
      (if m.other_execute then 0o001 else 0)) ∧
    (Mode.tryFrom ("u=rwx,g=rx,o=r")).map Mode.bits = .ok 0o754 ∧
    (Mode.tryFrom ("rwx")).map Mode.bits = .ok 0o777 ∧
    (Mode.tryFrom ("g=rx")).map Mode.bits = .ok 0o050 ∧
    (Mode.tryFrom ("o=r")).map Mode.bits = .ok 0o004 := by
  refine ⟨?_, rfl, rfl, rfl, rfl⟩
  intro m
  obtain ⟨u1, u2, u3, g1, g2, g3, o1, o2, o3⟩ := m
  cases u1 <;> cases u2 <;> cases u3 <;> cases g1 <;> cases g2 <;> cases g3 <;>
    cases o1 <;> cases o2 <;> cases o3 <;> rfl

/-- Witness for C5 at a concrete flag assignment. -/
theorem mode_bits_spec_witness :
    (Mode.mk true true true true false true false false true).bits = 0o751 :=
  (mode_bits_spec.1 (Mode.mk true true true true false true false false true)).trans
    (by decide)

/-- C7: a path that already exists (however it came to exist) is a no-op
success with `createParents` — unchanged filesystem, no output, no
error — while without `createParents` it always fails with the
already-exists OS error, mutating nothing and printing nothing. -/
theorem existing_path_spec (fs : FS) (dir_name : String) (v : Bool)
    (h : (fs.findEntry (pathOf dir_name)).isSome = true) :
    create_directory fs dir_name true v = ⟨fs, [], none⟩ ∧
    (create_directory fs dir_name false v).err = some OsError.alreadyExists ∧
    (create_directory fs dir_name false v).fs = fs ∧
    (create_directory fs dir_name false v).out = [] := by
  unfold create_directory create_dir
  simp [h]

/-- Witness for C7 on a filesystem already holding directory `x`. -/
theorem existing_path_spec_witness :
    create_directory fsDirX ("x") true true = ⟨fsDirX, [], none⟩ ∧
    (create_directory fsDirX ("x") false true).err = some OsError.alreadyExists ∧
    (create_directory fsDirX ("x") false true).fs = fsDirX ∧
    (create_directory fsDirX ("x") false true).out = [] :=
  existing_path_spec fsDirX ("x") true rfl

/-- C8: a directory-creation failure is reported on stderr as
`cannot create directory \`<path>\` <os-error-text>` and processing of
the remaining paths continues on the resulting filesystem; a failure of
`set_permissions` after a successful creation propagates at once, and
the remaining paths are not processed. -/
theorem run_failure_spec :
    (∀ (fs fs1 : FS) (d : String) (rest : List String) (p v : Bool)
        (mo : Option Mode) (out : List String) (e : OsError),
      create_directory fs d p v = ⟨fs1, out, some e⟩ →
      run fs (d :: rest) p v mo =
        ⟨(run fs1 rest p v mo).fs,
         out ++ (run fs1 rest p v mo).out,
         ("cannot create directory `" ++ d ++ "` " ++ errMsg e) ::
           (run fs1 rest p v mo).errout,
         (run fs1 rest p v mo).chmods,
         (run fs1 rest p v mo).err⟩) ∧
    (∀ (fs fs1 : FS) (d : String) (rest : List String) (p v : Bool) (m : Mode)
        (out : List String) (e : OsError),
      create_directory fs d p v = ⟨fs1, out, none⟩ →
      set_permissions fs1 d m.bits = .error e →
      run fs (d :: rest) p v (some m) =
        ⟨fs1, out, [], [(pathOf d, m.bits)], some e⟩) := by
  constructor
  · intro fs fs1 d rest p v mo out e h
    simp only [run]
    rw [h]
  · intro fs fs1 d rest p v m out e h hsp
    simp only [run]
    rw [h]
    simp only [hsp]

/-- Witness for C8: creating existing `x` without parents fails and `y`
is still processed; with chmod on `x` denied, the mode-application
failure on `x` halts before `y`. -/
theorem run_failure_spec_witness :
    run fsDirX [("x"), ("y")] false false none =
      ⟨(run fsDirX [("y")] false false none).fs,
       [] ++ (run fsDirX [("y")] false false none).out,
       ("cannot create directory `" ++ "x" ++ "` " ++ errMsg OsError.alreadyExists) ::
         (run fsDirX [("y")] false false none).errout,
       (run fsDirX [("y")] false false none).chmods,
       (run fsDirX [("y")] false false none).err⟩ ∧
    run fsDenyX [("x"), ("y")] false false (some Mode.default) =
      ⟨fsDenyX.insertDir [['x']], [], [], [(pathOf ("x"), Mode.default.bits)],
        some OsError.permissionDenied⟩ :=
  ⟨run_failure_spec.1 fsDirX fsDirX ("x") [("y")] false false none []
      OsError.alreadyExists rfl,
   run_failure_spec.2 fsDenyX (fsDenyX.insertDir [['x']]) ("x") [("y")] false false
      Mode.default [] OsError.permissionDenied rfl rfl⟩

/-- C9: for a requested path, `set_permissions` is invoked exactly when a
mode was supplied and directory creation reported success, with the
parsed bits on that path; when creation fails nothing further touches
the filesystem for that path. -/
theorem chmod_exactly_on_success (fs : FS) (d : String) (p v : Bool)
    (mo : Option Mode) :
    ((run fs [d] p v mo).chmods =
      if (create_directory fs d p v).err = none then
        (match mo with
         | some m => [(pathOf d, m.bits)]
         | none => [])
      else []) ∧
    ((create_directory fs d p v).err ≠ none →
      (run fs [d] p v mo).fs = (create_directory fs d p v).fs) := by
  constructor
  · rcases herr : (create_directory fs d p v).err with _ | e
    · rcases mo with _ | m
      · simp [run, herr]
      · rcases hsp : set_permissions (create_directory fs d p v).fs d m.bits with e2 | fs2 <;>
          simp [run, herr, hsp]
    · simp [run, herr]
  · intro hne
    rcases herr : (create_directory fs d p v).err with _ | e
    · exact absurd herr hne
    · simp [run, herr]

/-- Witness for C9: creation of existing `x` without parents fails, so no
permission call is recorded and the filesystem is unchanged. -/
theorem chmod_exactly_on_success_witness :
    (run fsDirX [("x")] false false (some Mode.default)).chmods = [] ∧
    (run fsDirX [("x")] false false (some Mode.default)).fs =
      (create_directory fsDirX ("x") false false).fs :=
  ⟨((chmod_exactly_on_success fsDirX ("x") false false (some Mode.default)).1).trans
      (by decide),
   (chmod_exactly_on_success fsDirX ("x") false false (some Mode.default)).2
      (by decide)⟩

/-- C10: with `createParents`, a target existing as a regular file is an
immediate success (the probe is `fs::metadata`, not a directory check),
and a supplied mode is then applied to that pre-existing file. -/
theorem existing_file_gets_mode (fs : FS) (d : String) (v : Bool) (m : Mode)
    (hfile : fs.lookup (pathOf d) = some FsObj.file)
    (hallowed : fs.chmodDenied.contains (pathOf d) = false) :
    create_directory fs d true v = ⟨fs, [], none⟩ ∧
    run fs [d] true v (some m) =
      ⟨fs.setPermsAt (pathOf d) m.bits, [], [], [(pathOf d, m.bits)], none⟩ := by
  have hsome : (fs.findEntry (pathOf d)).isSome = true := by
    unfold FS.lookup at hfile
    rcases h : fs.findEntry (pathOf d) with _ | e
    · rw [h] at hfile; simp at hfile
    · rfl
  have hcd : create_directory fs d true v = ⟨fs, [], none⟩ := by
    unfold create_directory
    simp [hsome]
  refine ⟨hcd, ?_⟩
  have hnd : pathOf d ∉ fs.chmodDenied := by simpa using hallowed
  have hsp : set_permissions fs d m.bits = .ok (fs.setPermsAt (pathOf d) m.bits) := by
    unfold set_permissions
    simp [hnd, hsome]
  simp only [run]
  rw [hcd]
  simp only [hsp]
  simp [run]

/-- Witness for C10 on a filesystem holding a regular file `x`. -/
theorem existing_file_gets_mode_witness :
    create_directory fsFileX ("x") true true = ⟨fsFileX, [], none⟩ ∧
    run fsFileX [("x")] true true (some Mode.default) =
      ⟨fsFileX.setPermsAt (pathOf ("x")) Mode.default.bits, [], [],
        [(pathOf ("x"), Mode.default.bits)], none⟩ :=
  existing_file_gets_mode fsFileX ("x") true Mode.default rfl rfl

/-- C3: a non-empty expression without `=` whose lowercased characters
all lie in {r,w,x} parses to a `Mode` whose user, group and other
classes each take read/write/execute from the presence of `r`/`w`/`x`;
the empty expression is rejected; and an expression without `=` holding
a character outside {r,w,x} is rejected echoing the original,
non-lowered expression. -/
theorem shorthand_spec :
    (∀ s : String,
      s.data.map Char.toLower ≠ [] →
      ('=' ∉ s.data.map Char.toLower) →
      (∀ c ∈ s.data.map Char.toLower, c = 'r' ∨ c = 'w' ∨ c = 'x') →
      Mode.tryFrom s = .ok
        ⟨(s.data.map Char.toLower).contains 'r',
         (s.data.map Char.toLower).contains 'w',
         (s.data.map Char.toLower).contains 'x',
         (s.data.map Char.toLower).contains 'r',
         (s.data.map Char.toLower).contains 'w',
         (s.data.map Char.toLower).contains 'x',
         (s.data.map Char.toLower).contains 'r',
         (s.data.map Char.toLower).contains 'w',
         (s.data.map Char.toLower).contains 'x'⟩) ∧
    Mode.tryFrom ("") = .error ("Mode must be defined") ∧
    (∀ s : String,
      ('=' ∉ s.data.map Char.toLower) →
      (∃ c ∈ s.data.map Char.toLower, ¬(c = 'r' ∨ c = 'w' ∨ c = 'x')) →
      Mode.tryFrom s = .error ("Invalid mode: " ++ s)) := by
  refine ⟨?_, rfl, ?_⟩
  · intro s hne hnoeq hall
    unfold Mode.tryFrom
    have h1 : (s.data.map Char.toLower).isEmpty = false := by
      rcases h : s.data.map Char.toLower with _ | ⟨a, l⟩
      · exact absurd h hne
      · rfl
    have h2 : (s.data.map Char.toLower).contains '=' = false := by
      simpa using hnoeq
    have h3 : (s.data.map Char.toLower).any (fun c => !(rwxContains c)) = false := by
      rw [List.any_eq_false]
      intro c hc
      rcases hall c hc with h | h | h <;> simp [h, rwxContains]
    simp only [h1, h2, h3, Bool.false_eq_true, if_false]
  · intro s hnoeq hbad
    unfold Mode.tryFrom
    rcases hbad with ⟨c, hc, hcbad⟩
    have h1 : (s.data.map Char.toLower).isEmpty = false := by
      rcases h : s.data.map Char.toLower with _ | ⟨a, l⟩
      · rw [h] at hc; exact absurd hc (List.not_mem_nil c)
      · rfl
    have h2 : (s.data.map Char.toLower).contains '=' = false := by
      simpa using hnoeq
    have h3 : (s.data.map Char.toLower).any (fun c => !(rwxContains c)) = true := by
      rw [List.any_eq_true]
      refine ⟨c, hc, ?_⟩
      simp only [rwxContains, Bool.not_eq_true']
      simp only [Bool.or_eq_false_iff, beq_eq_false_iff_ne]
      exact ⟨⟨fun h => hcbad (Or.inl h), fun h => hcbad (Or.inr (Or.inl h))⟩,
        fun h => hcbad (Or.inr (Or.inr h))⟩
    simp only [h1, h2, h3, Bool.false_eq_true, if_false, if_true]

/-- Witness for C3: `Rw` (exercising lowercasing) parses to
read and write on all three classes. -/
theorem shorthand_spec_witness :
    Mode.tryFrom ("Rw") =
      .ok ⟨true, true, false, true, true, false, true, true, false⟩ :=
  (shorthand_spec.1 ("Rw") (by decide) (by decide) (by decide)).trans (by rfl)

/-! Lemmas for C2: a segment with a class outside {u,g,o} and a
non-empty permission part always fails. -/

theorem applyPerm_bad (cls : List Char) (m : Mode) (p : Char)
    (hu : cls ≠ ['u']) (hg : cls ≠ ['g']) (ho : cls ≠ ['o']) :
    applyPerm cls m p =
      .error ("Unknown class or perm: " ++ String.mk cls ++ "=" ++ String.mk [p]) := by
  rw [applyPerm.eq_def]
  split <;> simp_all

theorem parseSegment_bad (seg cls ps : List Char)
    (hsplit : splitn2Eq seg = (cls, some ps))
    (hu : cls ≠ ['u']) (hg : cls ≠ ['g']) (ho : cls ≠ ['o'])
    (hps : ps ≠ []) :
    ∀ m, ∃ e, parseSegment m seg = .error e := by
  intro m
  unfold parseSegment
  rw [hsplit]
  by_cases hany : ps.any (fun c => !(rwxContains c)) = true
  · simp only [hany, if_true]
    exact ⟨_, rfl⟩
  · simp only [Bool.not_eq_true] at hany
    simp only [hany, Bool.false_eq_true, if_false]
    rcases ps with _ | ⟨p, ps2⟩
    · exact absurd rfl hps
    · rw [applyPerms, applyPerm_bad cls m p hu hg ho]
      exact ⟨_, rfl⟩

theorem parseSegments_err (segs : List (List Char)) (seg : List Char)
    (hmem : seg ∈ segs) (hbad : ∀ m, ∃ e, parseSegment m seg = .error e) :
    ∀ m, ∃ e, parseSegments m segs = .error e := by
  induction segs with
  | nil => exact absurd hmem (List.not_mem_nil seg)
  | cons s2 rest ih =>
    intro m
    rw [parseSegments]
    rcases hps : parseSegment m s2 with e | m2
    · exact ⟨e, rfl⟩
    · rcases List.mem_cons.mp hmem with h | h
      · obtain ⟨e, he⟩ := hbad m
        rw [h, hps] at he
        exact Except.noConfusion he
      · exact ih h m2

/-- C2 counterexample: `z=` has the class token `z`, outside {u,g,o},
yet parsing succeeds (with no flag set) because its permission part is
empty, so the per-character class check never runs. -/
theorem bad_class_empty_perms_accepted : Mode.tryFrom ("z=") = .ok Mode.default := rfl

/-- C2 (amended): in an expression containing `=`, a comma-separated
segment whose class token (before the first `=`) is not exactly `u`,
`g` or `o` makes parsing fail, provided its permission part is
non-empty; a bad-class segment with an empty permission part is
silently accepted and contributes no flags. -/
theorem bad_class_segment_rejected (s : String) (seg cls ps : List Char)
    (hmem : seg ∈ splitOnChar ',' (s.data.map Char.toLower))
    (heq : '=' ∈ s.data.map Char.toLower)
    (hsplit : splitn2Eq seg = (cls, some ps))
    (hu : cls ≠ ['u']) (hg : cls ≠ ['g']) (ho : cls ≠ ['o'])
    (hps : ps ≠ []) :
    ∃ e, Mode.tryFrom s = .error e := by
  unfold Mode.tryFrom
  have h1 : (s.data.map Char.toLower).isEmpty = false := by
    rcases h : s.data.map Char.toLower with _ | ⟨a, l⟩
    · rw [h] at heq; exact absurd heq (List.not_mem_nil _)
    · rfl
  have h2 : (s.data.map Char.toLower).contains '=' = true := by
    simpa using heq
  simp only [h1, h2, Bool.false_eq_true, if_false, if_true]
  exact parseSegments_err _ seg hmem
    (parseSegment_bad seg cls ps hsplit hu hg ho hps) Mode.default

/-- Witness for C2 (amended) at the expression `z=r`. -/
theorem bad_class_segment_rejected_witness : ∃ e, Mode.tryFrom ("z=r") = .error e :=
  bad_class_segment_rejected ("z=r") ['z', '=', 'r'] ['z'] ['r']
    (by decide) (by decide) rfl (by decide) (by decide) (by decide) (by decide)

/-! Machinery for C4 and C6: well-formed symbolic-class expressions,
built from an abstract list of (class, permission-characters) segments. -/

/-- The characters of one `class=perms` segment. -/
def segString (sg : Char × List Char) : List Char := sg.1 :: '=' :: sg.2

/-- The comma-separated expression built from the given segments. -/
def buildExpr (segs : List (Char × List Char)) : String :=
  String.mk (joinWith ',' (segs.map segString))

/-- A well-formed segment: class in {u,g,o}, permissions among {r,w,x}. -/
def GoodSeg (sg : Char × List Char) : Prop :=
  (sg.1 = 'u' ∨ sg.1 = 'g' ∨ sg.1 = 'o') ∧ ∀ p ∈ sg.2, p = 'r' ∨ p = 'w' ∨ p = 'x'

instance (sg : Char × List Char) : Decidable (GoodSeg sg) := by
  unfold GoodSeg
  infer_instance

/-- Flag-wise OR of two modes. -/
def modeOr (a b : Mode) : Mode :=
  ⟨a.user_read || b.user_read, a.user_write || b.user_write,
   a.user_execute || b.user_execute, a.group_read || b.group_read,
   a.group_write || b.group_write, a.group_execute || b.group_execute,
   a.other_read || b.other_read, a.other_write || b.other_write,
   a.other_execute || b.other_execute⟩

/-- The flags named by one segment with class `c` and permissions `ps`. -/
def segMode (c : Char) (ps : List Char) : Mode :=
  ⟨c == 'u' && ps.contains 'r', c == 'u' && ps.contains 'w',
   c == 'u' && ps.contains 'x', c == 'g' && ps.contains 'r',
   c == 'g' && ps.contains 'w', c == 'g' && ps.contains 'x',
   c == 'o' && ps.contains 'r', c == 'o' && ps.contains 'w',
   c == 'o' && ps.contains 'x'⟩

/-- The flags named by some segment of the list: each of the nine flags
is set iff a segment with the matching class names the matching
permission character. -/
def namedMode (segs : List (Char × List Char)) : Mode :=
  ⟨segs.any (fun sg => sg.1 == 'u' && sg.2.contains 'r'),
   segs.any (fun sg => sg.1 == 'u' && sg.2.contains 'w'),
   segs.any (fun sg => sg.1 == 'u' && sg.2.contains 'x'),
   segs.any (fun sg => sg.1 == 'g' && sg.2.contains 'r'),
   segs.any (fun sg => sg.1 == 'g' && sg.2.contains 'w'),
   segs.any (fun sg => sg.1 == 'g' && sg.2.contains 'x'),
   segs.any (fun sg => sg.1 == 'o' && sg.2.contains 'r'),
   segs.any (fun sg => sg.1 == 'o' && sg.2.contains 'w'),
   segs.any (fun sg => sg.1 == 'o' && sg.2.contains 'x')⟩

theorem modeOr_assoc (a b c : Mode) :
    modeOr (modeOr a b) c = modeOr a (modeOr b c) := by
  simp [modeOr, Bool.or_assoc]

theorem modeOr_default (m : Mode) : modeOr m Mode.default = m := by
  obtain ⟨f1, f2, f3, f4, f5, f6, f7, f8, f9⟩ := m
  simp [modeOr, Mode.default]

theorem default_modeOr (m : Mode) : modeOr Mode.default m = m := by
  obtain ⟨f1, f2, f3, f4, f5, f6, f7, f8, f9⟩ := m
  simp [modeOr, Mode.default]

theorem segMode_nil (c : Char) : segMode c [] = Mode.default := by
  simp [segMode, Mode.default]

theorem segMode_cons (c p : Char) (ps : List Char) :
    segMode c (p :: ps) = modeOr (segMode c [p]) (segMode c ps) := by
  simp [segMode, modeOr, List.contains_cons, Bool.and_or_distrib_left]

theorem applyPerm_good (c p : Char) (m : Mode)
    (hc : c = 'u' ∨ c = 'g' ∨ c = 'o') (hp : p = 'r' ∨ p = 'w' ∨ p = 'x') :
    applyPerm [c] m p = .ok (modeOr m (segMode c [p])) := by
  obtain ⟨f1, f2, f3, f4, f5, f6, f7, f8, f9⟩ := m
  rcases hc with hc | hc | hc <;> rcases hp with hp | hp | hp <;> subst hc <;> subst hp <;>
    simp [applyPerm, modeOr, segMode]

theorem applyPerms_good (c : Char) (ps : List Char) (m : Mode)
    (hc : c = 'u' ∨ c = 'g' ∨ c = 'o')
    (hps : ∀ p ∈ ps, p = 'r' ∨ p = 'w' ∨ p = 'x') :
    applyPerms [c] m ps = .ok (modeOr m (segMode c ps)) := by
  induction ps generalizing m with
  | nil => rw [applyPerms, segMode_nil, modeOr_default]
  | cons p ps2 ih =>
    rw [applyPerms, applyPerm_good c p m hc (hps p (List.mem_cons_self ..))]
    show applyPerms [c] (modeOr m (segMode c [p])) ps2 = _
    rw [ih (modeOr m (segMode c [p])) (fun q hq => hps q (List.mem_cons_of_mem _ hq))]
    rw [modeOr_assoc, ← segMode_cons]

theorem parseSegment_good (c : Char) (ps : List Char) (m : Mode)
    (hc : c = 'u' ∨ c = 'g' ∨ c = 'o')
    (hps : ∀ p ∈ ps, p = 'r' ∨ p = 'w' ∨ p = 'x') :
    parseSegment m (segString (c, ps)) = .ok (modeOr m (segMode c ps)) := by
  have hsplit : splitn2Eq (segString (c, ps)) = ([c], some ps) := by
    rcases hc with hc | hc | hc <;> subst hc <;> rfl
  have hany : ps.any (fun x => !(rwxContains x)) = false := by
    rw [List.any_eq_false]
    intro x hx
    rcases hps x hx with h | h | h <;> simp [h, rwxContains]
  unfold parseSegment
  rw [hsplit]
  simp only [hany, Bool.false_eq_true, if_false]
  exact applyPerms_good c ps m hc hps

theorem parseSegments_good (segs : List (Char × List Char)) (m : Mode)
    (hgood : ∀ sg ∈ segs, GoodSeg sg) :
    parseSegments m (segs.map segString) = .ok (modeOr m (namedMode segs)) := by
  induction segs generalizing m with
  | nil =>
    rw [List.map_nil, parseSegments]
    rw [show namedMode [] = Mode.default from rfl, modeOr_default]
  | cons sg rest ih =>
    obtain ⟨hc, hps⟩ := hgood sg (List.mem_cons_self ..)
    rw [List.map_cons, parseSegments]
    rw [show segString sg = segString (sg.1, sg.2) from rfl,
      parseSegment_good sg.1 sg.2 m hc hps]
    show parseSegments (modeOr m (segMode sg.1 sg.2)) (rest.map segString) = _
    rw [ih (modeOr m (segMode sg.1 sg.2)) (fun q hq => hgood q (List.mem_cons_of_mem _ hq))]
    rw [modeOr_assoc]
    have hnm : namedMode (sg :: rest) = modeOr (segMode sg.1 sg.2) (namedMode rest) := by
      simp [namedMode, segMode, modeOr, List.any_cons]
    rw [hnm]

theorem mem_joinWith (sep : Char) (parts : List (List Char)) :
    ∀ x ∈ joinWith sep parts, x = sep ∨ ∃ comp ∈ parts, x ∈ comp := by
  induction parts with
  | nil =>
    intro x hx
    exact absurd hx (List.not_mem_nil x)
  | cons p ps ih =>
    cases ps with
    | nil =>
      intro x hx
      exact Or.inr ⟨p, List.mem_cons_self .., hx⟩
    | cons q qs =>
      intro x hx
      rw [joinWith] at hx
      rcases List.mem_append.mp hx with h | h
      · exact Or.inr ⟨p, List.mem_cons_self .., h⟩
      · rcases List.mem_cons.mp h with h | h
        · exact Or.inl h
        · rcases ih x h with h | ⟨comp, hcm, hxc⟩
          · exact Or.inl h
          · exact Or.inr ⟨comp, List.mem_cons_of_mem _ hcm, hxc⟩
      · exact fun hcontra => List.noConfusion hcontra

theorem joinWith_cons (sep : Char) (p : List Char) (ps : List (List Char)) :
    ∃ t, joinWith sep (p :: ps) = p ++ t := by
  cases ps with
  | nil => exact ⟨[], by rw [joinWith, List.append_nil]⟩
  | cons q qs =>
    refine ⟨sep :: joinWith sep (q :: qs), ?_⟩
    rw [joinWith]
    exact fun hcontra => List.noConfusion hcontra

/-- Lowercasing fixes every character a well-formed symbolic expression
can contain. -/
theorem toLower_buildExpr (segs : List (Char × List Char))
    (hgood : ∀ sg ∈ segs, GoodSeg sg) :
    (buildExpr segs).data.map Char.toLower = joinWith ',' (segs.map segString) := by
  have hfix : ∀ x ∈ joinWith ',' (segs.map segString), Char.toLower x = x := by
    intro x hx
    rcases mem_joinWith ',' (segs.map segString) x hx with h | ⟨comp, hcm, hxc⟩
    · rw [h]; rfl
    · obtain ⟨sg, hsg, hcomp⟩ := List.mem_map.mp hcm
      rw [← hcomp] at hxc
      unfold segString at hxc
      rcases List.mem_cons.mp hxc with h | h
      · obtain ⟨hc, _⟩ := hgood sg hsg
        rcases hc with hc | hc | hc <;> rw [h, hc] <;> rfl
      · rcases List.mem_cons.mp h with h | h
        · rw [h]; rfl
        · obtain ⟨_, hps⟩ := hgood sg hsg
          rcases hps x h with hp | hp | hp <;> rw [hp] <;> rfl
  calc (buildExpr segs).data.map Char.toLower
      = (joinWith ',' (segs.map segString)).map Char.toLower := rfl
    _ = (joinWith ',' (segs.map segString)).map id :=
        List.map_congr_left hfix
    _ = joinWith ',' (segs.map segString) := List.map_id _

/-- Core helper for C4 and C6: a non-empty well-formed symbolic
expression parses to exactly the flags named by its segments. -/
theorem tryFrom_buildExpr_good (segs : List (Char × List Char))
    (hne : segs ≠ []) (hgood : ∀ sg ∈ segs, GoodSeg sg) :
    Mode.tryFrom (buildExpr segs) = .ok (namedMode segs) := by
  rcases segs with _ | ⟨sg, rest⟩
  · exact absurd rfl hne
  unfold Mode.tryFrom
  rw [toLower_buildExpr (sg :: rest) hgood]
  obtain ⟨t, ht⟩ := joinWith_cons ',' (segString sg) (rest.map segString)
  rw [List.map_cons] at *
  have hne2 : (joinWith ',' (segString sg :: rest.map segString)).isEmpty = false := by
    rw [ht]
    rw [segString, List.cons_append]
    rfl
  have heqmem : (joinWith ',' (segString sg :: rest.map segString)).contains '=' = true := by
    rw [ht]
    have : '=' ∈ segString sg ++ t := by
      apply List.mem_append_left
      rw [segString]
      exact List.mem_cons_of_mem _ (List.mem_cons_self ..)
    simpa using this
  have hsplit : splitOnChar ',' (joinWith ',' (segString sg :: rest.map segString)) =
      segString sg :: rest.map segString := by
    apply splitOnChar_joinWith
    · exact fun hcontra => List.noConfusion hcontra
    · intro comp hcm
      have hcm2 : comp ∈ (sg :: rest).map segString := by
        rw [List.map_cons]
        exact hcm
      obtain ⟨sg2, hsg2, hcomp⟩ := List.mem_map.mp hcm2
      rw [← hcomp]
      obtain ⟨hc, hps⟩ := hgood sg2 hsg2
      intro hmem
      rw [segString] at hmem
      rcases List.mem_cons.mp hmem with h | h
      · rcases hc with hc | hc | hc <;> rw [hc] at h <;> exact absurd h (by decide)
      · rcases List.mem_cons.mp h with h | h
        · exact absurd h (by decide)
        · rcases hps ',' h with hp | hp | hp <;> exact absurd hp (by decide)
  simp only [hne2, heqmem, Bool.false_eq_true, if_false, if_true, hsplit]
  rw [show segString sg :: rest.map segString = (sg :: rest).map segString from rfl]
  rw [parseSegments_good (sg :: rest) Mode.default hgood, default_modeOr]

theorem perm_any_eq {α : Type} {l1 l2 : List α} (h : l1.Perm l2) (f : α → Bool) :
    l1.any f = l2.any f := by
  rw [Bool.eq_iff_iff, List.any_eq_true, List.any_eq_true]
  constructor
  · rintro ⟨x, hx, hfx⟩
    exact ⟨x, h.mem_iff.mp hx, hfx⟩
  · rintro ⟨x, hx, hfx⟩
    exact ⟨x, h.mem_iff.mpr hx, hfx⟩

theorem namedMode_perm {s1 s2 : List (Char × List Char)} (h : s1.Perm s2) :
    namedMode s1 = namedMode s2 := by
  unfold namedMode
  rw [perm_any_eq h, perm_any_eq h, perm_any_eq h, perm_any_eq h, perm_any_eq h,
    perm_any_eq h, perm_any_eq h, perm_any_eq h, perm_any_eq h]

theorem namedMode_append (s1 s2 : List (Char × List Char)) :
    namedMode (s1 ++ s2) = modeOr (namedMode s1) (namedMode s2) := by
  simp [namedMode, modeOr, List.any_append]

/-- C4: a well-formed symbolic-class expression (comma-separated
`class=perms` segments, class in {u,g,o}, perms among {r,w,x}) parses
successfully to the `Mode` whose nine flags are exactly those named by
some segment; in particular `g=rx` alone yields group-read and
group-execute and nothing else. -/
theorem symbolic_exact_flags :
    (∀ segs : List (Char × List Char), segs ≠ [] → (∀ sg ∈ segs, GoodSeg sg) →
      Mode.tryFrom (buildExpr segs) = .ok (namedMode segs)) ∧
    Mode.tryFrom ("g=rx") =
      .ok ⟨false, false, false, true, false, true, false, false, false⟩ :=
  ⟨tryFrom_buildExpr_good, rfl⟩

/-- Witness for C4 at the two-segment expression `u=rw,g=x`. -/
theorem symbolic_exact_flags_witness :
    Mode.tryFrom (buildExpr [('u', ['r', 'w']), ('g', ['x'])]) =
      .ok (namedMode [('u', ['r', 'w']), ('g', ['x'])]) ∧
    buildExpr [('u', ['r', 'w']), ('g', ['x'])] = ("u=rw,g=x") ∧
    namedMode [('u', ['r', 'w']), ('g', ['x'])] =
      ⟨true, true, false, false, false, true, false, false, false⟩ :=
  ⟨symbolic_exact_flags.1 [('u', ['r', 'w']), ('g', ['x'])] (by decide) (by decide),
   rfl, rfl⟩

/-- C6: parsing well-formed symbolic segments is accumulative and
order-independent: appending further segments ORs their flags onto the
earlier ones (never resetting any), repeated classes simply OR
together, permuting segments leaves the result unchanged, and
`u=r,u=w` parses identically to `u=rw`. -/
theorem accumulation_order_independent :
    (∀ s1 s2 : List (Char × List Char), (∀ sg ∈ s1, GoodSeg sg) →
      s1.Perm s2 → Mode.tryFrom (buildExpr s1) = Mode.tryFrom (buildExpr s2)) ∧
    (∀ s1 s2 : List (Char × List Char), s1 ≠ [] →
      (∀ sg ∈ s1, GoodSeg sg) → (∀ sg ∈ s2, GoodSeg sg) →
      Mode.tryFrom (buildExpr (s1 ++ s2)) =
        .ok (modeOr (namedMode s1) (namedMode s2))) ∧
    Mode.tryFrom ("u=r,u=w") = Mode.tryFrom ("u=rw") := by
  refine ⟨?_, ?_, rfl⟩
  · intro s1 s2 hgood hp
    rcases hs1 : s1 with _ | ⟨sg, rest⟩
    · have hs2 : s2 = [] := by
        rw [hs1] at hp
        exact hp.symm.eq_nil
      rw [hs2]
    · rw [← hs1]
      have hne1 : s1 ≠ [] := by rw [hs1]; exact fun h => List.noConfusion h
      have hne2 : s2 ≠ [] := by
        intro h
        rw [h] at hp
        exact hne1 hp.eq_nil
      have hgood2 : ∀ sg ∈ s2, GoodSeg sg :=
        fun sg hsg => hgood sg (hp.mem_iff.mpr hsg)
      rw [tryFrom_buildExpr_good s1 hne1 hgood,
        tryFrom_buildExpr_good s2 hne2 hgood2, namedMode_perm hp]
  · intro s1 s2 hne1 hgood1 hgood2
    have hne : s1 ++ s2 ≠ [] := by
      intro h
      exact hne1 (List.append_eq_nil.mp h).1
    have hgood : ∀ sg ∈ s1 ++ s2, GoodSeg sg := by
      intro sg hsg
      rcases List.mem_append.mp hsg with h | h
      · exact hgood1 sg h
      · exact hgood2 sg h
    rw [tryFrom_buildExpr_good (s1 ++ s2) hne hgood, namedMode_append]

/-- Witness for C6: swapping the segments of `u=r,g=w` gives the same
parse. -/
theorem accumulation_order_independent_witness :
    Mode.tryFrom (buildExpr [('u', ['r']), ('g', ['w'])]) =
      Mode.tryFrom (buildExpr [('g', ['w']), ('u', ['r'])]) :=
  accumulation_order_independent.1 [('u', ['r']), ('g', ['w'])]
    [('g', ['w']), ('u', ['r'])] (by decide) (by decide)

end Mkdirr
